import Mathlib

/-!
Shallow embedding of the expense-tracking page in `src/app/page.tsx`.

The program is a React client component.  Its core is:
* the expense collection (`expenses : Expense[]`) and the creation form state;
* `handleAdd` (lines 89-101): validates and prepends a new record;
* `filteredSorted` (lines 70-80): the filter/sort view projection;
* `saveEdit` (lines 111-114): whole-record replacement by id;
* the row editor's field `onChange` handlers (lines 350-355 and 393-401);
* the persistence effects (lines 44-55) writing/reading `localStorage`.

Conventions of the embedding:
* JS numbers are modelled as `ℚ`.  The only arithmetic the program performs
  on amounts is `Math.round(x * 100) / 100` and the comparator difference,
  both exact at this data scale, so the rational idealization is faithful.
* `Number(string)` is modelled on the fragment the program exercises:
  optional sign, decimal digits, optional decimal point (the form inputs are
  `inputMode="decimal"` text fields).  Exponent, hexadecimal and `Infinity`
  spellings are mapped to `none` (NaN); `Number("") = 0` is modelled.
* `Array.prototype.sort` is, per the ECMAScript specification, a stable sort
  ordered by the sign of the comparator; it is modelled by `List.mergeSort`
  with `le a b := comparator a b ≤ 0`.
* `String.prototype.localeCompare` is modelled as code-point three-way
  comparison.  For the `date` key this is exact (fixed-width ASCII ISO
  strings collate identically); for the `description` key the Russian
  collation is abstracted by the code-point order, which no claim relies on.
* `JSON.stringify` / `JSON.parse` are modelled at the JSON-value level:
  a `Json` tree stands for the serialized text (parsing the printed text of
  an acyclic JSON value yields the same value back, with JS doubles
  round-tripping exactly; the textual layer is therefore the identity on
  `Json` and is elided).  The `localStorage` slot holds `Option Json`
  (`none` = no data / unparseable data, which the `try/catch` swallows).
-/

/-- The six category labels of `CategoryKey` (page.tsx line 6), renamed to
ASCII: `eda` = "Еда", `transport` = "Транспорт", `zhilyo` = "Жильё",
`razvlecheniya` = "Развлечения", `obrazovanie` = "Образование",
`drugoe` = "Другое". -/
inductive CategoryKey where
  | eda
  | transport
  | zhilyo
  | razvlecheniya
  | obrazovanie
  | drugoe
deriving DecidableEq, Repr

/-- The `Expense` record type (page.tsx lines 8-14). -/
structure Expense where
  id : String
  description : String
  category : CategoryKey
  date : String
  amount : ℚ
deriving DecidableEq, Repr

/-- The `SortKey` type (page.tsx line 25). -/
inductive SortKey where
  | date
  | amount
  | description
deriving DecidableEq, Repr

/-- The sort direction `"asc" | "desc"` (page.tsx line 36). -/
inductive SortDir where
  | asc
  | desc
deriving DecidableEq, Repr

/-- The filter selection `CategoryKey | "Все"` (page.tsx line 34);
`vse` is the sentinel "Все" ("all"). -/
inductive FilterCategory where
  | vse
  | only (c : CategoryKey)
deriving DecidableEq, Repr

/-! ### Amount parsing: `Number(String(amount).replace(/\s+/g, "").replace(",", "."))` -/

/-- Whitespace characters matched by the JS regexp class `\s`
(restricted to the ASCII range; the Unicode space code points behave
identically and never affect the claims). -/
def isJsSpace (c : Char) : Bool :=
  c = ' ' || c = '\t' || c = '\n' || c = '\r' || c = '\x0b' || c = '\x0c'

/-- The effect of `.replace(/\s+/g, "")`: every whitespace character is
removed from the string. -/
def stripSpaces (cs : List Char) : List Char :=
  cs.filter (fun c => !(isJsSpace c))

/-- The effect of `.replace(",", ".")` with a string pattern: only the
first occurrence of `','` is replaced by `'.'`. -/
def replaceFirstComma : List Char → List Char
  | [] => []
  | c :: rest => if c = ',' then '.' :: rest else c :: replaceFirstComma rest

/-- `String.prototype.trim()`: leading and trailing whitespace removed. -/
def jsTrim (s : String) : String :=
  ⟨((s.data.dropWhile isJsSpace).reverse.dropWhile isJsSpace).reverse⟩

/-- Numeric value of a digit string read in base 10. -/
def digitsToNat (cs : List Char) : ℕ :=
  cs.foldl (fun n c => 10 * n + (c.toNat - 48)) 0

/-- Whether every character is a decimal digit. -/
def allDigits (cs : List Char) : Bool :=
  cs.all (fun c => c.isDigit)

/-- `Number` on an unsigned, whitespace-free string, as an exact decimal:
`some (m, k)` stands for the value `m / 10 ^ k`.  The accepted forms are
digits with an optional decimal point (`"12"`, `"12."`, `"12.5"`, `".5"`,
with value `intPart + frac / 10 ^ frac.length = (intPart ++ frac) / 10 ^ frac.length`);
anything else is NaN (`none`).  The empty string is handled by
`jsNumberDec` (it is `0` only when the whole input is empty, not after a
sign). -/
def parseUnsigned (cs : List Char) : Option (ℕ × ℕ) :=
  let intPart := cs.takeWhile (fun c => c ≠ '.')
  match cs.dropWhile (fun c => c ≠ '.') with
  | [] =>
    if !intPart.isEmpty && allDigits intPart then
      some (digitsToNat intPart, 0)
    else
      none
  | _ :: frac =>
    if (!intPart.isEmpty || !frac.isEmpty) && allDigits intPart && allDigits frac then
      some (digitsToNat (intPart ++ frac), frac.length)
    else
      none

/-- `Number(s)` on a whitespace-free string, as a signed exact decimal:
`some (m, k)` stands for the value `m / 10 ^ k`; `none` is NaN. -/
def jsNumberDec (cs : List Char) : Option (ℤ × ℕ) :=
  match cs with
  | [] => some (0, 0)
  | '-' :: rest => (parseUnsigned rest).map (fun p => (-(p.1 : ℤ), p.2))
  | '+' :: rest => (parseUnsigned rest).map (fun p => ((p.1 : ℤ), p.2))
  | _ => (parseUnsigned cs).map (fun p => ((p.1 : ℤ), p.2))

/-- The sanitized decimal reading of an amount input string:
`Number(input.replace(/\s+/g, "").replace(",", "."))` as an exact decimal
pair. -/
def parseDec (s : String) : Option (ℤ × ℕ) :=
  jsNumberDec (replaceFirstComma (stripSpaces s.data))

/-- The parsed amount of `handleAdd` (page.tsx line 90) and of the row
editor's amount `onChange` (line 398): the rational value of the decimal. -/
def parsedAmount (s : String) : Option ℚ :=
  (parseDec s).map (fun p => ((p.1 : ℤ) : ℚ) / (10 : ℚ) ^ p.2)

/-- `Math.round(q * 100) / 100` (page.tsx line 97).  `Math.round` rounds
halves towards positive infinity, exactly as Mathlib's `round`. -/
def round2 (q : ℚ) : ℚ :=
  ((round (q * 100) : ℤ) : ℚ) / 100

/-! ### Form and application state -/

/-- The creation form fields (page.tsx lines 29-32): `description`,
`category`, `date`, `amount` (the amount is the raw input string). -/
structure FormState where
  description : String
  category : CategoryKey
  date : String
  amount : String
deriving DecidableEq, Repr

/-- The state the claims are about: the expense collection and the form. -/
structure AppState where
  expenses : List Expense
  form : FormState
deriving DecidableEq, Repr

/-- `resetForm` (page.tsx lines 82-87): empty description, category "Еда",
today's ISO date, empty amount.  These are also the initial `useState`
values (lines 29-32). -/
def resetForm (today : String) : FormState :=
  { description := "", category := .eda, date := today, amount := "" }

/-- The initial application state: empty collection, default form. -/
def initialState (today : String) : AppState :=
  { expenses := [], form := resetForm today }

/-- `handleAdd` (page.tsx lines 89-101).  `newId` models `crypto.randomUUID()`
and `today` models `new Date().toISOString().slice(0, 10)`; both are
environment inputs.  The guard is
`!description.trim() || !date || Number.isNaN(parsedAmount) || parsedAmount <= 0`;
on success the new record is prepended and the form reset. -/
def handleAdd (newId today : String) (s : AppState) : AppState :=
  match parsedAmount s.form.amount with
  | none => s
  | some parsed =>
    if jsTrim s.form.description = "" ∨ s.form.date = "" ∨ parsed ≤ 0 then
      s
    else
      { expenses :=
          { id := newId
            description := jsTrim s.form.description
            category := s.form.category
            date := s.form.date
            amount := round2 parsed } :: s.expenses
        form := resetForm today }

/-- `handleDelete` (page.tsx lines 103-105): `prev.filter((e) => e.id !== id)`. -/
def handleDelete (id : String) (expenses : List Expense) : List Expense :=
  expenses.filter (fun e => decide (e.id ≠ id))

/-- `saveEdit` (page.tsx lines 111-114):
`prev.map((e) => (e.id === updated.id ? updated : e))`. -/
def saveEdit (updated : Expense) (expenses : List Expense) : List Expense :=
  expenses.map (fun e => if e.id = updated.id then updated else e)

/-! ### The view projection `filteredSorted` (page.tsx lines 70-80) -/

/-- Code-point three-way comparison modelling `localeCompare`
(see the header comment for the abstraction involved). -/
def localeCompare (a b : String) : ℤ :=
  if a < b then -1 else if b < a then 1 else 0

/-- The comparator body selected by `sortKey` (page.tsx lines 73-76):
`date` compares the ISO strings, `amount` is the numeric difference,
`description` compares the strings. -/
def cmpExpense (k : SortKey) (a b : Expense) : ℚ :=
  match k with
  | .date => ((localeCompare a.date b.date : ℤ) : ℚ)
  | .amount => a.amount - b.amount
  | .description => ((localeCompare a.description b.description : ℤ) : ℚ)

/-- The directed comparator (page.tsx line 77):
`sortDir === "asc" ? cmp : -cmp`. -/
def cmpDir (k : SortKey) (d : SortDir) (a b : Expense) : ℚ :=
  match d with
  | .asc => cmpExpense k a b
  | .desc => -(cmpExpense k a b)

/-- The `le` relation induced by the comparator: `Array.prototype.sort`
places `a` no later than `b` exactly when the comparator is `≤ 0`. -/
def sortLe (k : SortKey) (d : SortDir) (a b : Expense) : Bool :=
  decide (cmpDir k d a b ≤ 0)

/-- The filter stage (page.tsx line 71):
`filterCategory === "Все" ? expenses : expenses.filter((e) => e.category === filterCategory)`. -/
def byCategory (expenses : List Expense) (filterCategory : FilterCategory) : List Expense :=
  match filterCategory with
  | .vse => expenses
  | .only c => expenses.filter (fun e => decide (e.category = c))

/-- `filteredSorted` (page.tsx lines 70-80): filter, then stable sort by the
directed comparator. -/
def filteredSorted (expenses : List Expense) (filterCategory : FilterCategory)
    (k : SortKey) (d : SortDir) : List Expense :=
  (byCategory expenses filterCategory).mergeSort (sortLe k d)

/-! ### Row editor field handlers (page.tsx lines 350-355 and 393-401) -/

/-- The value stored by the amount `onChange` (page.tsx line 398):
`Number(input.replace(/\s+/g, "").replace(",", ".")) || 0` — the `|| 0`
coerces both NaN and 0 to 0. -/
def editAmountValue (input : String) : ℚ :=
  match parsedAmount input with
  | none => 0
  | some q => if q = 0 then 0 else q

/-- The amount `onChange` of the row editor (page.tsx lines 397-399):
`setLocal({ ...local, amount: ... })` on the working copy. -/
def setLocalAmount (w : Expense) (input : String) : Expense :=
  { w with amount := editAmountValue input }

/-- The description `onChange` of the row editor (page.tsx line 353):
`setLocal({ ...local, description: e.target.value })`. -/
def setLocalDescription (w : Expense) (input : String) : Expense :=
  { w with description := input }

/-! ### Persistence (page.tsx lines 44-55) -/

/-- JSON values, standing for the serialized text held by the
`"wallet.expenses"` slot. -/
inductive Json where
  | null
  | bool (b : Bool)
  | num (q : ℚ)
  | str (s : String)
  | arr (items : List Json)
  | obj (fields : List (String × Json))

/-- The category labels as stored in JSON (page.tsx lines 16-23). -/
def categoryToString : CategoryKey → String
  | .eda => "Еда"
  | .transport => "Транспорт"
  | .zhilyo => "Жильё"
  | .razvlecheniya => "Развлечения"
  | .obrazovanie => "Образование"
  | .drugoe => "Другое"

/-- Reading a category label back from its JSON string. -/
def categoryOfString (s : String) : Option CategoryKey :=
  if s = "Еда" then some .eda
  else if s = "Транспорт" then some .transport
  else if s = "Жильё" then some .zhilyo
  else if s = "Развлечения" then some .razvlecheniya
  else if s = "Образование" then some .obrazovanie
  else if s = "Другое" then some .drugoe
  else none

/-- `JSON.stringify` of one expense record: the object with the five
fields in declaration order. -/
def encodeExpense (e : Expense) : Json :=
  .obj [("id", .str e.id), ("description", .str e.description),
        ("category", .str (categoryToString e.category)),
        ("date", .str e.date), ("amount", .num e.amount)]

/-- `JSON.stringify(expenses)`: the array of encoded records in order. -/
def encodeExpenses (l : List Expense) : Json :=
  .arr (l.map encodeExpense)

/-- Reading one record out of a parsed JSON value, per the `Expense` type
the program casts the parsed data to. -/
def decodeExpense (j : Json) : Option Expense :=
  match j with
  | .obj fields =>
    match fields.lookup "id", fields.lookup "description", fields.lookup "category",
        fields.lookup "date", fields.lookup "amount" with
    | some (.str i), some (.str dsc), some (.str cat), some (.str dt), some (.num a) =>
      (categoryOfString cat).map (fun ck =>
        { id := i, description := dsc, category := ck, date := dt, amount := a })
    | _, _, _, _, _ => none
  | _ => none

/-- Reading the whole collection out of a parsed JSON value. -/
def decodeExpenses (j : Json) : Option (List Expense) :=
  match j with
  | .arr items => items.mapM decodeExpense
  | _ => none

/-- The write effect (page.tsx lines 53-55): the slot is overwritten with
the serialization of the whole collection. -/
def writeStorage (expenses : List Expense) : Option Json :=
  some (encodeExpenses expenses)

/-- The startup read effect (page.tsx lines 44-51): no data, or data that
does not decode, leaves the initial empty collection (the `try/catch`
swallows the failure). -/
def loadExpenses (slot : Option Json) : List Expense :=
  match slot with
  | none => []
  | some j => (decodeExpenses j).getD []

/-! ### Sequences of adds (for the storage-order claim) -/

/-- One user-performed add: the environment-supplied fresh id and today's
date, and the form contents the user typed before pressing the button. -/
structure AddInput where
  newId : String
  today : String
  form : FormState
deriving DecidableEq, Repr

/-- Typing the form fields and pressing "Добавить новый расход". -/
def applyAdd (i : AddInput) (s : AppState) : AppState :=
  handleAdd i.newId i.today { s with form := i.form }

/-- A sequence of adds performed in order. -/
def addAll (inputs : List AddInput) (s : AppState) : AppState :=
  inputs.foldl (fun s i => applyAdd i s) s

/-- Validity of an add input, exactly the guard of `handleAdd`. -/
def validAdd (i : AddInput) : Prop :=
  jsTrim i.form.description ≠ "" ∧ i.form.date ≠ "" ∧
    ∃ q : ℚ, parsedAmount i.form.amount = some q ∧ 0 < q

/-- The record a valid add input creates (the `none` branch is never
reached for valid inputs). -/
def recOf (i : AddInput) : Expense :=
  match parsedAmount i.form.amount with
  | some q =>
    { id := i.newId, description := jsTrim i.form.description,
      category := i.form.category, date := i.form.date, amount := round2 q }
  | none =>
    { id := i.newId, description := jsTrim i.form.description,
      category := i.form.category, date := i.form.date, amount := 0 }

/-! ### Concrete instances used by witnesses and counterexamples -/

/-- A concrete expense record. -/
def expFood : Expense :=
  { id := "a1", description := "Кофе", category := .eda, date := "2024-01-05", amount := 100 }

/-- A concrete expense record in another category. -/
def expTaxi : Expense :=
  { id := "a2", description := "Такси", category := .transport, date := "2024-01-06", amount := 250 }

/-- A concrete expense record tied with `expFood` on amount. -/
def expFood2 : Expense :=
  { id := "a3", description := "Обед", category := .eda, date := "2024-01-07", amount := 100 }

/-- A form state filled with valid creation input. -/
def sAdd : AppState :=
  { expenses := []
    form := { description := " Кофе ", category := .eda, date := "2024-01-05", amount := "199,5" } }

/-- A form state whose amount does not parse. -/
def sBad : AppState :=
  { expenses := [expFood]
    form := { description := "Кофе", category := .eda, date := "2024-01-05", amount := "abc" } }

/-- A form state holding a negative amount input. -/
def sNeg : AppState :=
  { expenses := [expFood]
    form := { description := "Кофе", category := .eda, date := "2024-01-05", amount := "-5" } }

/-- A first add action. -/
def iCoffee : AddInput :=
  { newId := "id-1", today := "2024-01-05"
    form := { description := "Кофе", category := .eda, date := "2024-01-05", amount := "100" } }

/-- A second, later add action. -/
def iTaxi : AddInput :=
  { newId := "id-2", today := "2024-01-06"
    form := { description := "Такси", category := .transport, date := "2024-01-06", amount := "250" } }

/-! ### Order-theoretic helper lemmas about the comparator -/

/-- The order each sort key compares by. -/
def keyLe : SortKey → Expense → Expense → Prop
  | .date => fun a b => a.date ≤ b.date
  | .amount => fun a b => a.amount ≤ b.amount
  | .description => fun a b => a.description ≤ b.description

theorem localeCompare_nonpos {a b : String} : localeCompare a b ≤ 0 ↔ a ≤ b := by
  unfold localeCompare
  rcases lt_trichotomy a b with h | h | h
  · simp [h, le_of_lt h]
  · simp [h]
  · rw [if_neg (asymm h), if_pos h]
    simp [not_le.mpr h]

theorem localeCompare_swap (a b : String) : localeCompare b a = -localeCompare a b := by
  unfold localeCompare
  rcases lt_trichotomy a b with h | h | h
  · simp [h, asymm h]
  · simp [h, lt_irrefl]
  · simp [h, asymm h]

theorem cmpExpense_swap (k : SortKey) (a b : Expense) :
    cmpExpense k b a = -cmpExpense k a b := by
  cases k
  · simp only [cmpExpense]
    rw [localeCompare_swap]
    push_cast
    ring
  · simp only [cmpExpense]
    ring
  · simp only [cmpExpense]
    rw [localeCompare_swap]
    push_cast
    ring

theorem cmpExpense_nonpos (k : SortKey) (a b : Expense) :
    cmpExpense k a b ≤ 0 ↔ keyLe k a b := by
  cases k <;>
    simp [cmpExpense, keyLe, sub_nonpos, Int.cast_nonpos, localeCompare_nonpos]

theorem cmpExpense_nonneg (k : SortKey) (a b : Expense) :
    0 ≤ cmpExpense k a b ↔ keyLe k b a := by
  rw [← neg_nonpos, ← cmpExpense_swap, cmpExpense_nonpos]

theorem sortLe_asc_iff (k : SortKey) (a b : Expense) :
    sortLe k .asc a b = true ↔ keyLe k a b := by
  simp [sortLe, cmpDir, cmpExpense_nonpos]

theorem sortLe_desc_iff (k : SortKey) (a b : Expense) :
    sortLe k .desc a b = true ↔ keyLe k b a := by
  simp [sortLe, cmpDir, neg_nonpos, cmpExpense_nonneg]

theorem keyLe_trans (k : SortKey) (a b c : Expense) :
    keyLe k a b → keyLe k b c → keyLe k a c := by
  cases k <;> exact fun h1 h2 => le_trans h1 h2

theorem keyLe_total (k : SortKey) (a b : Expense) : keyLe k a b ∨ keyLe k b a := by
  cases k <;> exact le_total ..

theorem sortLe_trans (k : SortKey) (d : SortDir) (a b c : Expense) :
    sortLe k d a b → sortLe k d b c → sortLe k d a c := by
  cases d
  · rw [sortLe_asc_iff, sortLe_asc_iff, sortLe_asc_iff]
    exact keyLe_trans k a b c
  · rw [sortLe_desc_iff, sortLe_desc_iff, sortLe_desc_iff]
    exact fun h1 h2 => keyLe_trans k c b a h2 h1

theorem sortLe_total (k : SortKey) (d : SortDir) (a b : Expense) :
    sortLe k d a b || sortLe k d b a := by
  rw [Bool.or_eq_true]
  cases d
  · rw [sortLe_asc_iff, sortLe_asc_iff]
    exact keyLe_total k a b
  · rw [sortLe_desc_iff, sortLe_desc_iff]
    exact (keyLe_total k b a)

/-! ### Helper lemmas about `handleAdd` -/

theorem handleAdd_eq_of_valid (newId today : String) (s : AppState) (q : ℚ)
    (hd : jsTrim s.form.description ≠ "") (hdate : s.form.date ≠ "")
    (hq : parsedAmount s.form.amount = some q) (hpos : 0 < q) :
    handleAdd newId today s =
      { expenses :=
          { id := newId, description := jsTrim s.form.description,
            category := s.form.category, date := s.form.date,
            amount := round2 q } :: s.expenses
        form := resetForm today } := by
  have hcond : ¬(jsTrim s.form.description = "" ∨ s.form.date = "" ∨ q ≤ 0) := by
    push_neg
    exact ⟨hd, hdate, hpos⟩
  unfold handleAdd
  rw [hq]
  simp only [if_neg hcond]

theorem handleAdd_eq_self_of_invalid (newId today : String) (s : AppState)
    (h : parsedAmount s.form.amount = none
      ∨ (∃ q : ℚ, parsedAmount s.form.amount = some q ∧ q ≤ 0)
      ∨ jsTrim s.form.description = "" ∨ s.form.date = "") :
    handleAdd newId today s = s := by
  unfold handleAdd
  cases hp : parsedAmount s.form.amount with
  | none => rfl
  | some q =>
    rcases h with h | ⟨q2, hq2, hle⟩ | h | h
    · rw [hp] at h
      exact absurd h (by simp)
    · rw [hp] at hq2
      have hqle : q ≤ 0 := by
        injection hq2 with h2
        rw [h2]
        exact hle
      exact if_pos (Or.inr (Or.inr hqle))
    · exact if_pos (Or.inl h)
    · exact if_pos (Or.inr (Or.inl h))

/-! ### Claim theorems -/

/-- C1: when the description is non-empty after trimming, the date is
non-empty, and the amount input parses (after whitespace removal and the
comma replacement) to a strictly positive number, `handleAdd` grows the
collection by exactly 1, the new record carries the parsed amount rounded
to 2 decimal places, the new record is prepended (placed first), and the
form is reset to its defaults. -/
theorem handleAdd_success_adds (newId today : String) (s : AppState) (q : ℚ)
    (hd : jsTrim s.form.description ≠ "") (hdate : s.form.date ≠ "")
    (hq : parsedAmount s.form.amount = some q) (hpos : 0 < q) :
    (handleAdd newId today s).expenses =
        { id := newId, description := jsTrim s.form.description,
          category := s.form.category, date := s.form.date,
          amount := round2 q } :: s.expenses
      ∧ (handleAdd newId today s).expenses.length = s.expenses.length + 1
      ∧ (handleAdd newId today s).expenses.head?.map Expense.amount = some (round2 q)
      ∧ (handleAdd newId today s).form = resetForm today := by
  rw [handleAdd_eq_of_valid newId today s q hd hdate hq hpos]
  refine ⟨rfl, ?_, rfl, rfl⟩
  simp

/-- Witness for C1 at a concrete state: description " Кофе ", date
"2024-01-05", amount input "199,5" (which parses to 199.5). -/
theorem handleAdd_success_adds_witness :
    (handleAdd "id-1" "2024-01-06" sAdd).expenses =
        [{ id := "id-1", description := jsTrim " Кофе ", category := .eda,
           date := "2024-01-05", amount := round2 (1995 / 10) }]
      ∧ (handleAdd "id-1" "2024-01-06" sAdd).form = resetForm "2024-01-06" := by
  have hq : parsedAmount "199,5" = some (1995 / 10) := by
    unfold parsedAmount
    rw [show parseDec "199,5" = some (1995, 1) from by decide]
    norm_num
  have h := handleAdd_success_adds "id-1" "2024-01-06" sAdd (1995 / 10)
    (by decide) (by decide) hq (by norm_num)
  exact ⟨h.1, h.2.2.2⟩

/-- C2: when the amount input fails to parse or parses to a non-positive
number, or the description is empty or whitespace-only after trimming, or
the date is empty, `handleAdd` leaves the whole state (collection and form
fields) unchanged. -/
theorem handleAdd_invalid_noop (newId today : String) (s : AppState)
    (h : parsedAmount s.form.amount = none
      ∨ (∃ q : ℚ, parsedAmount s.form.amount = some q ∧ q ≤ 0)
      ∨ jsTrim s.form.description = "" ∨ s.form.date = "") :
    (handleAdd newId today s).expenses = s.expenses
      ∧ (handleAdd newId today s).form = s.form := by
  rw [handleAdd_eq_self_of_invalid newId today s h]
  exact ⟨rfl, rfl⟩

/-- Witness for C2 at a concrete state: the amount input "abc" does not
parse, so the collection and form are untouched. -/
theorem handleAdd_invalid_noop_witness :
    (handleAdd "id-9" "2024-01-06" sBad).expenses = [expFood]
      ∧ (handleAdd "id-9" "2024-01-06" sBad).form = sBad.form := by
  have hnone : parsedAmount "abc" = none := by
    unfold parsedAmount
    rw [show parseDec "abc" = none from by decide]
    rfl
  have h := handleAdd_invalid_noop "id-9" "2024-01-06" sBad (Or.inl hnone)
  exact ⟨h.1, h.2⟩

/-- C3: with a single category filter every projected record carries that
category, and every record of the collection carrying it is kept with its
multiplicity (so, under unique ids, exactly once); with the sentinel "Все"
every record of the collection is kept with its multiplicity. -/
theorem filteredSorted_filter_correct (l : List Expense) (c : CategoryKey)
    (k : SortKey) (d : SortDir) :
    (∀ e ∈ filteredSorted l (.only c) k d, e.category = c)
      ∧ (∀ e : Expense, e.category = c →
          (filteredSorted l (.only c) k d).count e = l.count e)
      ∧ (∀ e : Expense, (filteredSorted l .vse k d).count e = l.count e) := by
  refine ⟨?_, ?_, ?_⟩
  · intro e he
    unfold filteredSorted at he
    have h2 : e ∈ byCategory l (.only c) := List.mem_mergeSort.mp he
    have h3 := (List.mem_filter.mp h2).2
    exact of_decide_eq_true h3
  · intro e hc
    have hperm := List.mergeSort_perm (byCategory l (.only c)) (sortLe k d)
    unfold filteredSorted
    rw [hperm.count_eq]
    exact List.count_filter (by simpa using hc)
  · intro e
    have hperm := List.mergeSort_perm (byCategory l .vse) (sortLe k d)
    exact hperm.count_eq e

/-- Witness for C3 at a concrete collection: filtering ["Кофе" (Еда),
"Такси" (Транспорт)] by "Еда" keeps the food record with multiplicity 1,
and the sentinel projection keeps both records. -/
theorem filteredSorted_filter_correct_witness :
    (filteredSorted [expFood, expTaxi] (.only .eda) .date .asc).count expFood
        = ([expFood, expTaxi] : List Expense).count expFood
      ∧ (filteredSorted [expFood, expTaxi] .vse .date .asc).count expTaxi
        = ([expFood, expTaxi] : List Expense).count expTaxi := by
  have h := filteredSorted_filter_correct [expFood, expTaxi] .eda .date .asc
  exact ⟨h.2.1 expFood rfl, h.2.2 expTaxi⟩

/-- C4: the projection's sort is stable — two records tied under the
selected directed comparator keep, in the output, the relative order they
had in the filtered input (stated as preservation of tied subsequences,
which pins the output order down completely together with sortedness and
the permutation property). -/
theorem filteredSorted_sort_stable (l : List Expense) (f : FilterCategory)
    (k : SortKey) (d : SortDir) (a b : Expense)
    (htie : cmpDir k d a b = 0) (hpair : List.Sublist [a, b] (byCategory l f)) :
    List.Sublist [a, b] (filteredSorted l f k d) := by
  refine List.pair_sublist_mergeSort (sortLe_trans k d) (sortLe_total k d) ?_ hpair
  simp [sortLe, htie]

/-- Witness for C4: two records with equal amounts (a tie for the amount
key) stay in their input order in the projection. -/
theorem filteredSorted_sort_stable_witness :
    List.Sublist [expFood, expFood2] (filteredSorted [expFood, expFood2] .vse .amount .asc) := by
  have htie : cmpDir .amount .asc expFood expFood2 = 0 := by
    show expFood.amount - expFood2.amount = 0
    norm_num [expFood, expFood2]
  exact filteredSorted_sort_stable [expFood, expFood2] .vse .amount .asc
    expFood expFood2 htie (List.Sublist.refl _)

/-- C5: the projection's comparator is the lexical string comparison for
the date key and the numeric difference for the amount key; ascending
applies it as-is and descending negates it; consequently sorting by date
descending arranges the output so that lexically greater dates come first
(every earlier output record has a date ≥ every later one). -/
theorem filteredSorted_comparator (l : List Expense) (f : FilterCategory) :
    (∀ a b : Expense, cmpExpense .date a b = ((localeCompare a.date b.date : ℤ) : ℚ))
      ∧ (∀ a b : Expense, cmpExpense .amount a b = a.amount - b.amount)
      ∧ (∀ (k : SortKey) (a b : Expense), cmpDir k .asc a b = cmpExpense k a b)
      ∧ (∀ (k : SortKey) (a b : Expense), cmpDir k .desc a b = -(cmpExpense k a b))
      ∧ (filteredSorted l f .date .desc).Pairwise (fun a b => b.date ≤ a.date) := by
  refine ⟨fun a b => rfl, fun a b => rfl, fun k a b => rfl, fun k a b => rfl, ?_⟩
  have hs := List.sorted_mergeSort
    (sortLe_trans .date .desc) (sortLe_total .date .desc) (byCategory l f)
  exact hs.imp (fun h => (sortLe_desc_iff .date _ _).mp h)

/-! ### Helper lemmas about sequences of adds -/

theorem recOf_id (i : AddInput) : (recOf i).id = i.newId := by
  unfold recOf
  cases parsedAmount i.form.amount <;> rfl

theorem applyAdd_eq_of_valid (i : AddInput) (s : AppState) (h : validAdd i) :
    applyAdd i s = { expenses := recOf i :: s.expenses, form := resetForm i.today } := by
  obtain ⟨hd, hdate, q, hq, hpos⟩ := h
  unfold applyAdd
  rw [handleAdd_eq_of_valid i.newId i.today _ q hd hdate hq hpos]
  unfold recOf
  rw [hq]

theorem addAll_expenses (inputs : List AddInput) (s : AppState)
    (h : ∀ i ∈ inputs, validAdd i) :
    (addAll inputs s).expenses = (inputs.map recOf).reverse ++ s.expenses := by
  induction inputs generalizing s with
  | nil => simp [addAll]
  | cons i is ih =>
    have hstep : addAll (i :: is) s = addAll is (applyAdd i s) := by
      simp [addAll]
    rw [hstep, applyAdd_eq_of_valid i s (h i (List.mem_cons_self i is)),
      ih _ (fun j hj => h j (List.mem_cons_of_mem i hj))]
    simp

/-! ### C6: stored insertion order -/

/-- C6 counterexample: two successful adds from the empty collection,
"Кофе" (created first) then "Такси" (created second).  The stored
collection is ["Такси", "Кофе"], so the record created earliest is NOT
first (and the one created latest is not last) — storage order is
newest-first, contradicting the claim's oldest-to-newest reading. -/
theorem addAll_oldest_first_counterexample :
    (addAll [iCoffee, iTaxi] (initialState "2024-01-01")).expenses.head?
      ≠ some (recOf iCoffee) := by
  have hvalid : ∀ i ∈ [iCoffee, iTaxi], validAdd i := by
    intro i hi
    rcases List.mem_pair.mp hi with h | h <;> subst h
    · exact ⟨by decide, by decide, (100 : ℚ) / 10 ^ 0, by
        unfold parsedAmount
        rw [show parseDec iCoffee.form.amount = some (100, 0) from by decide]
        norm_num, by norm_num⟩
    · exact ⟨by decide, by decide, (250 : ℚ) / 10 ^ 0, by
        unfold parsedAmount
        rw [show parseDec iTaxi.form.amount = some (250, 0) from by decide]
        norm_num, by norm_num⟩
  rw [addAll_expenses [iCoffee, iTaxi] (initialState "2024-01-01") hvalid]
  intro hcontra
  simp only [List.map_cons, List.map_nil, List.reverse_cons, List.reverse_nil,
    List.nil_append, List.append_assoc, List.cons_append, List.head?_cons,
    initialState, List.append_nil] at hcontra
  have hid : (recOf iTaxi).id = (recOf iCoffee).id := by
    rw [Option.some_inj.mp hcontra]
  rw [recOf_id, recOf_id] at hid
  exact absurd hid (by decide)

/-- C6 amended: the stored (unprojected) collection reflects creation
order from NEWEST to OLDEST — for every sequence of successful adds
starting from the empty collection the stored list is the reverse of the
creation sequence, so the record created latest is first and the record
created earliest is last. -/
theorem addAll_newest_first (inputs : List AddInput) (today : String)
    (h : ∀ i ∈ inputs, validAdd i) :
    (addAll inputs (initialState today)).expenses = (inputs.map recOf).reverse
      ∧ (∀ i0 : AddInput, inputs.head? = some i0 →
          (addAll inputs (initialState today)).expenses.getLast? = some (recOf i0))
      ∧ (∀ iN : AddInput, inputs.getLast? = some iN →
          (addAll inputs (initialState today)).expenses.head? = some (recOf iN)) := by
  have hmain : (addAll inputs (initialState today)).expenses = (inputs.map recOf).reverse := by
    rw [addAll_expenses inputs (initialState today) h]
    simp [initialState]
  refine ⟨hmain, ?_, ?_⟩
  · intro i0 h0
    rw [hmain, List.getLast?_reverse, List.head?_map, h0]
    rfl
  · intro iN hN
    rw [hmain, List.head?_reverse, List.getLast?_map, hN]
    rfl

/-- Witness for the amended C6: after adding "Кофе" then "Такси" from
empty, the stored collection is [Такси-record, Кофе-record]. -/
theorem addAll_newest_first_witness :
    (addAll [iCoffee, iTaxi] (initialState "2024-01-01")).expenses
        = [recOf iTaxi, recOf iCoffee]
      ∧ (addAll [iCoffee, iTaxi] (initialState "2024-01-01")).expenses.getLast?
        = some (recOf iCoffee) := by
  have hvalid : ∀ i ∈ [iCoffee, iTaxi], validAdd i := by
    intro i hi
    rcases List.mem_pair.mp hi with h | h <;> subst h
    · exact ⟨by decide, by decide, (100 : ℚ) / 10 ^ 0, by
        unfold parsedAmount
        rw [show parseDec iCoffee.form.amount = some (100, 0) from by decide]
        norm_num, by norm_num⟩
    · exact ⟨by decide, by decide, (250 : ℚ) / 10 ^ 0, by
        unfold parsedAmount
        rw [show parseDec iTaxi.form.amount = some (250, 0) from by decide]
        norm_num, by norm_num⟩
  have h := addAll_newest_first [iCoffee, iTaxi] "2024-01-01" hvalid
  refine ⟨?_, h.2.1 iCoffee rfl⟩
  rw [h.1]
  rfl

/-! ### Persistence round-trip helpers -/

theorem decodeExpense_encodeExpense (e : Expense) :
    decodeExpense (encodeExpense e) = some e := by
  cases e with
  | mk i d c dt a => cases c <;> rfl

theorem decodeExpenses_encodeExpenses (l : List Expense) :
    decodeExpenses (encodeExpenses l) = some l := by
  unfold decodeExpenses encodeExpenses
  induction l with
  | nil => rfl
  | cons e rest ih =>
    simp only [List.map_cons, List.mapM_cons, decodeExpense_encodeExpense] at *
    rw [ih]
    rfl

/-- C7: persistence round-trip — serializing any collection (including the
empty one) to the storage slot and reloading through the startup read path
yields an element-wise equal collection (same ids, fields and order). -/
theorem storage_roundtrip (C : List Expense) : loadExpenses (writeStorage C) = C := by
  show (decodeExpenses (encodeExpenses C)).getD [] = C
  rw [decodeExpenses_encodeExpenses]
  rfl

/-- C8: the edit commit path applies no validation — an edited amount
string that fails to parse is stored as 0 (coerced, not rejected), and a
record edited to an empty description is stored with the empty
description. -/
theorem saveEdit_no_validation (w : Expense) (input : String) (l : List Expense)
    (hfail : parsedAmount input = none) :
    (setLocalAmount w input).amount = 0
      ∧ (∀ e ∈ saveEdit (setLocalAmount w input) l, e.id = w.id → e.amount = 0)
      ∧ (setLocalDescription w "").description = ""
      ∧ (∀ e ∈ saveEdit (setLocalDescription w "") l, e.id = w.id → e.description = "") := by
  have hamt : (setLocalAmount w input).amount = 0 := by
    show editAmountValue input = 0
    unfold editAmountValue
    rw [hfail]
  refine ⟨hamt, ?_, rfl, ?_⟩
  · intro e he hid
    obtain ⟨a, _, hfa⟩ := List.mem_map.mp he
    by_cases hcase : a.id = (setLocalAmount w input).id
    · rw [if_pos hcase] at hfa
      rw [← hfa]
      exact hamt
    · rw [if_neg hcase] at hfa
      rw [← hfa] at hid
      exact absurd hid hcase
  · intro e he hid
    obtain ⟨a, _, hfa⟩ := List.mem_map.mp he
    by_cases hcase : a.id = (setLocalDescription w "").id
    · rw [if_pos hcase] at hfa
      rw [← hfa]
      rfl
    · rw [if_neg hcase] at hfa
      rw [← hfa] at hid
      exact absurd hid hcase

/-- Witness for C8: the unparseable edited amount "abc" is committed as
amount 0, and an emptied description is committed empty. -/
theorem saveEdit_no_validation_witness :
    (setLocalAmount expFood "abc").amount = 0
      ∧ (setLocalDescription expFood "").description = "" := by
  have hnone : parsedAmount "abc" = none := by
    unfold parsedAmount
    rw [show parseDec "abc" = none from by decide]
    rfl
  have h := saveEdit_no_validation expFood "abc" [expFood] hnone
  exact ⟨h.1, h.2.2.1⟩

/-- C9: `saveEdit` has whole-record replace semantics — the length is
preserved, the record at every position whose id matches the supplied
record's id is replaced by the supplied record wholesale, every other
record keeps its content and position, and if no record carries the id the
collection is unchanged. -/
theorem saveEdit_replace_semantics (u : Expense) (l : List Expense) :
    (saveEdit u l).length = l.length
      ∧ (∀ i : ℕ, (saveEdit u l)[i]? = (l[i]?).map (fun e => if e.id = u.id then u else e))
      ∧ (∀ (i : ℕ) (e : Expense), l[i]? = some e → e.id = u.id → (saveEdit u l)[i]? = some u)
      ∧ (∀ (i : ℕ) (e : Expense), l[i]? = some e → e.id ≠ u.id → (saveEdit u l)[i]? = some e)
      ∧ ((∀ e ∈ l, e.id ≠ u.id) → saveEdit u l = l) := by
  have hget : ∀ i : ℕ, (saveEdit u l)[i]? = (l[i]?).map (fun e => if e.id = u.id then u else e) :=
    fun i => List.getElem?_map ..
  refine ⟨List.length_map .., hget, ?_, ?_, ?_⟩
  · intro i e hi hid
    rw [hget i, hi]
    simp [hid]
  · intro i e hi hid
    rw [hget i, hi]
    simp [hid]
  · intro hnone
    unfold saveEdit
    rw [List.map_congr_left (fun a ha => if_neg (hnone a ha))]
    exact List.map_id l

/-- Witness for C9: replacing by the id of the second record updates
position 1 and leaves position 0 untouched; an id matching nothing leaves
the collection unchanged. -/
theorem saveEdit_replace_semantics_witness :
    (saveEdit { expTaxi with amount := 999 } [expFood, expTaxi])[1]?
        = some { expTaxi with amount := 999 }
      ∧ (saveEdit { expTaxi with amount := 999 } [expFood, expTaxi])[0]? = some expFood
      ∧ saveEdit { expFood with id := "zzz" } [expFood, expTaxi] = [expFood, expTaxi] := by
  have h := saveEdit_replace_semantics { expTaxi with amount := 999 } [expFood, expTaxi]
  have h2 := saveEdit_replace_semantics { expFood with id := "zzz" } [expFood, expTaxi]
  refine ⟨h.2.2.1 1 expTaxi rfl (by decide), h.2.2.2.1 0 expFood rfl (by decide), ?_⟩
  refine h2.2.2.2.2 ?_
  intro e he
  rcases List.mem_pair.mp he with hcase | hcase <;> subst hcase <;> decide

/-- C10 (implicit): the edit path's `|| 0` coercion only maps NaN and 0 to
0 — an edited amount string parsing to a strictly negative number is kept
on the working copy and committed as that negative amount, even though the
creation path rejects the same input. -/
theorem saveEdit_negative_amount (w : Expense) (input : String) (l : List Expense)
    (q : ℚ) (newId today : String) (s : AppState)
    (hq : parsedAmount input = some q) (hneg : q < 0) (hform : s.form.amount = input) :
    (setLocalAmount w input).amount = q
      ∧ (∀ e ∈ saveEdit (setLocalAmount w input) l, e.id = w.id → e.amount = q)
      ∧ handleAdd newId today s = s := by
  have hamt : (setLocalAmount w input).amount = q := by
    show editAmountValue input = q
    unfold editAmountValue
    rw [hq]
    exact if_neg (ne_of_lt hneg)
  refine ⟨hamt, ?_, ?_⟩
  · intro e he hid
    obtain ⟨a, _, hfa⟩ := List.mem_map.mp he
    by_cases hcase : a.id = (setLocalAmount w input).id
    · rw [if_pos hcase] at hfa
      rw [← hfa]
      exact hamt
    · rw [if_neg hcase] at hfa
      rw [← hfa] at hid
      exact absurd hid hcase
  · refine handleAdd_eq_self_of_invalid newId today s (Or.inr (Or.inl ⟨q, ?_, le_of_lt hneg⟩))
    rw [hform]
    exact hq

/-- Witness for C10: the edited amount "-5" is stored as -5 on the working
copy, while creating with amount input "-5" is rejected unchanged. -/
theorem saveEdit_negative_amount_witness :
    (setLocalAmount expFood "-5").amount = -5
      ∧ handleAdd "id-7" "2024-01-09" sNeg = sNeg := by
  have hq : parsedAmount "-5" = some (-5) := by
    unfold parsedAmount
    rw [show parseDec "-5" = some (-5, 0) from by decide]
    norm_num
  have h := saveEdit_negative_amount expFood "-5" [expFood] (-5) "id-7" "2024-01-09" sNeg
    hq (by norm_num) rfl
  exact ⟨h.1, h.2.2⟩
